import Mathlib

/-!
Verification of the colibra fixed-size linear-algebra core
(src/include/colibra/vector.h and the matrix header) against its
specification. The C++ class templates are shallowly embedded: a
Vector of length l over element type T becomes a function from Fin l
to T, the variadic constructor becomes a function from the list of
supplied values, and the single runtime failure mode (checked access
out of range, which throws std::out_of_range) is modelled with Option.
-/

namespace colibra

/-- Shallow embedding of colibra::Vector<l, T>: a fixed-length
container of exactly l elements of type T, here a function from
indices below l to elements. -/
abbrev Vector (l : Nat) (T : Type) : Type := Fin l → T

/-- Embedding of the variadic constructor Vector::Vector(T val1, P... vals)
(vector.h, lines 35-39). The supplied values aggregate-initialize the
member std::array<T, l>: when k values are supplied with k below or
equal to l, entries 0..k-1 take the supplied values in order and the
remaining l - k entries are value-initialized to the zero value of T;
supplying more than l values does not compile, which is modelled as
none. -/
def Vector.mk? {T : Type} [Zero T] (l : Nat) (vals : List T) :
    Option (Vector l T) :=
  if vals.length ≤ l then some (fun i => vals.getD i.val 0) else none

/-- Embedding of the default constructor Vector::Vector() (vector.h,
lines 45-49): the member array is value-initialized, so every element
is the zero value of T. -/
def Vector.null (l : Nat) {T : Type} [Zero T] : Vector l T := fun _ => 0

/-- Embedding of checked access Vector::operator[] (vector.h, lines
93-109), which delegates to std::array::at: an index below l yields
the element stored there, an index at or beyond l throws
std::out_of_range, modelled as none. The embedding is a pure
function, reflecting that the throwing path performs no write to the
vector. -/
def Vector.at? {l : Nat} {T : Type} (v : Vector l T) (p : Nat) : Option T :=
  if h : p < l then some (v ⟨p, h⟩) else none

/-- C1: constructing a vector from exactly l supplied values succeeds,
and checked access at every index agrees with positional lookup in the
supplied list — the elements come back in supply order (indices at or
beyond l yield none on both sides). -/
theorem construct_readback_in_order {T : Type} [Zero T] {l : Nat}
    (vals : List T) (hlen : vals.length = l) :
    (Vector.mk? l vals).isSome = true ∧
      ∀ i : Nat, ((Vector.mk? l vals).bind fun v => v.at? i) = vals[i]? := by
  have hle : vals.length ≤ l := hlen.le
  constructor
  · simp [Vector.mk?, hle]
  · intro i
    simp only [Vector.mk?, if_pos hle, Option.some_bind, Vector.at?]
    by_cases h : i < l
    · rw [dif_pos h]
      rw [List.getElem?_eq_getElem (by omega)]
      rw [List.getD_eq_getElem _ _ (by omega)]
    · rw [dif_neg h]
      rw [List.getElem?_eq_none (by omega)]

/-- Witness for C1 at a concrete input: the 3-vector built from the
values 5, 7, 9 reads back 7 at index 1. -/
theorem construct_readback_in_order_witness :
    ((Vector.mk? 3 ([5, 7, 9] : List Int)).bind fun v => v.at? 1) = some 7 :=
  ((construct_readback_in_order [5, 7, 9] rfl).2 1).trans (by decide)

/-- C3: checked access at any index at or beyond l raises the
out-of-range fault (none), and checked access at any index below l —
in particular l - 1 — never faults and returns the element stored at
that index. The embedded accessor is a pure function of the vector, so
the vector is unchanged by a faulting access; every other vector
operation in this development is a total function, reflecting that
checked access is the only operation with a runtime failure mode. -/
theorem checked_access_bounds {T : Type} {l : Nat} (v : Vector l T) (p : Nat) :
    (l ≤ p → v.at? p = none) ∧ ∀ h : p < l, v.at? p = some (v ⟨p, h⟩) := by
  constructor
  · intro hge
    exact dif_neg (by omega)
  · intro h
    exact dif_pos h

/-- Witness for C3 at a concrete input: on a 2-vector, checked access
at index 5 faults and checked access at index 1 returns the element. -/
theorem checked_access_bounds_witness :
    Vector.at? (![10, 20] : Vector 2 Int) 5 = none ∧
      Vector.at? (![10, 20] : Vector 2 Int) 1 = some 20 :=
  ⟨(checked_access_bounds (![10, 20] : Vector 2 Int) 5).1 (by omega),
    ((checked_access_bounds (![10, 20] : Vector 2 Int) 1).2
      (by omega)).trans (by decide)⟩

/-- C4 counterexample: the claim asserts that any value count
different from l is rejected at translation time, but supplying 2
values to a Vector<3, int> is accepted — the member array is
aggregate-initialized and the missing entries are zero-filled, as the
repository test file itself exercises with Vector<2, double> n {1.0}. -/
theorem wrong_count_not_always_rejected :
    (Vector.mk? 3 ([1, 2] : List Int)).isSome = true := by decide

/-- C4 amended: supplying more than l values to the variadic
constructor of Vector<l, T> is rejected at translation time (too many
initializers for the member array), while supplying any count up to l
is accepted; a wrong count that is accepted is never a runtime fault. -/
theorem count_check_amended {T : Type} [Zero T] (l : Nat) :
    (∀ vals : List T, l < vals.length → Vector.mk? l vals = none) ∧
      ∀ vals : List T, vals.length ≤ l → (Vector.mk? l vals).isSome = true := by
  constructor
  · intro vals hgt
    exact if_neg (by omega)
  · intro vals hle
    simp [Vector.mk?, hle]

/-- Witness for C4 amended at concrete inputs: 3 values into a
2-vector are rejected, 1 value into a 2-vector is accepted. -/
theorem count_check_amended_witness :
    Vector.mk? 2 ([1, 2, 3] : List Int) = none ∧
      (Vector.mk? 2 ([1] : List Int)).isSome = true :=
  ⟨(count_check_amended 2).1 [1, 2, 3] (by decide),
    (count_check_amended 2).2 [1] (by decide)⟩

/-- C10: constructing a Vector<l, T> with l and T spelled out from
only k values, 1 <= k < l, is accepted, the first k elements are the
supplied values and the remaining l - k elements are the zero value of
T. -/
theorem partial_construction_zero_fills {T : Type} [Zero T] {l k : Nat}
    (vals : List T) (hlen : vals.length = k) (h1 : 1 ≤ k) (hk : k < l) :
    (Vector.mk? l vals).isSome = true ∧
      (∀ i : Nat, i < k →
        ((Vector.mk? l vals).bind fun v => v.at? i) = vals[i]?) ∧
      ∀ i : Nat, k ≤ i → i < l →
        ((Vector.mk? l vals).bind fun v => v.at? i) = some 0 := by
  have hle : vals.length ≤ l := by omega
  refine ⟨by simp [Vector.mk?, hle], ?_, ?_⟩
  · intro i hik
    simp only [Vector.mk?, if_pos hle, Option.some_bind, Vector.at?]
    rw [dif_pos (by omega)]
    rw [List.getElem?_eq_getElem (by omega)]
    rw [List.getD_eq_getElem _ _ (by omega)]
  · intro i hki hil
    simp only [Vector.mk?, if_pos hle, Option.some_bind, Vector.at?]
    rw [dif_pos hil]
    rw [List.getD_eq_default _ _ (by omega)]

/-- Witness for C10 at a concrete input: one value into a 3-vector of
integers is accepted, index 0 holds the value and index 2 holds zero. -/
theorem partial_construction_zero_fills_witness :
    ((Vector.mk? 3 ([7] : List Int)).bind fun v => v.at? 0) = some 7 ∧
      ((Vector.mk? 3 ([7] : List Int)).bind fun v => v.at? 2) = some 0 :=
  ⟨(((partial_construction_zero_fills (l := 3) (k := 1) [7] (by decide)
      (by decide) (by decide)).2.1 0 (by decide)).trans (by decide)),
    ((partial_construction_zero_fills (l := 3) (k := 1) [7] (by decide)
      (by decide) (by decide)).2.2 2 (by decide) (by decide))⟩

/-- Embedding of the private helper Vector::apply_each(other, op, idx)
(vector.h, lines 263-270): builds the vector whose entry at index Idx
is op(m_array[Idx], other[Idx]). Both arguments are implicitly
converted to the promoted element type R = std::common_type_t<T, S>
at the call of op; these conversions are modelled by the maps tc and
sc. -/
def Vector.applyEach2 {l : Nat} {T S R : Type} (tc : T → R) (sc : S → R)
    (op : R → R → R) (a : Vector l T) (b : Vector l S) : Vector l R :=
  fun i => op (tc (a i)) (sc (b i))

/-- Embedding of the scalar overload of Vector::apply_each (vector.h,
lines 256-261): entry at index Idx is op(m_array[Idx], fac), both
arguments converted to the promoted type R as modelled by tc and sc. -/
def Vector.applyEachScalar {l : Nat} {T S R : Type} (tc : T → R) (sc : S → R)
    (op : R → R → R) (a : Vector l T) (fac : S) : Vector l R :=
  fun i => op (tc (a i)) (sc fac)

/-- Embedding of the private Vector::sum (vector.h, lines 278-282): the
unary left fold (... + m_array[Idx]) over the whole index pack. The
fold is only well-formed for a nonempty pack, and a vector of length 0
cannot be constructed, so the embedding is stated for length n + 1. -/
def Vector.vsum {n : Nat} {T : Type} [Add T] (v : Vector (n + 1) T) : T :=
  (List.ofFn fun i : Fin n => v i.succ).foldl (fun a b => a + b) (v 0)

/-- Embedding of Vector::operator*(const Vector<l, S>&) (vector.h,
lines 123-129): multiplies the two vectors elementwise in the promoted
type R and sums the products with Vector::sum, returning a single
scalar of type R. -/
def Vector.vmulv {n : Nat} {T S R : Type} [Add R] [Mul R]
    (tc : T → R) (sc : S → R)
    (a : Vector (n + 1) T) (b : Vector (n + 1) S) : R :=
  Vector.vsum (Vector.applyEach2 tc sc (fun x y => x * y) a b)

/-- Embedding of Vector::operator*(const S&) (vector.h, lines 141-147):
scales every element by the scalar, in the promoted type R. -/
def Vector.vmuls {l : Nat} {T S R : Type} [Mul R] (tc : T → R) (sc : S → R)
    (a : Vector l T) (scalar : S) : Vector l R :=
  Vector.applyEachScalar tc sc (fun x y => x * y) a scalar

/-- Embedding of Vector::operator+ (vector.h, lines 159-164):
elementwise addition in the promoted type R. -/
def Vector.vadd {l : Nat} {T S R : Type} [Add R] (tc : T → R) (sc : S → R)
    (a : Vector l T) (b : Vector l S) : Vector l R :=
  Vector.applyEach2 tc sc (fun x y => x + y) a b

/-- A left fold of addition starting at x adds x to the list sum. -/
theorem foldl_add_eq_add_sum {M : Type} [AddCommMonoid M]
    (xs : List M) (x : M) : xs.foldl (fun a b => a + b) x = x + xs.sum := by
  induction xs generalizing x with
  | nil => simp
  | cons a as ih => simp [ih (x + a), add_assoc]

/-- The embedded Vector::sum equals the finite sum of the entries. -/
theorem vsum_eq_sum {n : Nat} {M : Type} [AddCommMonoid M]
    (v : Vector (n + 1) M) : Vector.vsum v = ∑ i, v i := by
  rw [Vector.vsum, foldl_add_eq_add_sum, List.sum_ofFn]
  exact (Fin.sum_univ_succ v).symm

/-- C2: for every pair of vectors of identical length, the
vector-by-vector multiply operator returns a single scalar in the
promoted type R — the sum over all indices i of the product of the
i-th elements, each converted to R. -/
theorem vector_multiply_is_dot_product {n : Nat} {T S R : Type}
    [AddCommMonoid R] [Mul R] (tc : T → R) (sc : S → R)
    (a : Vector (n + 1) T) (b : Vector (n + 1) S) :
    Vector.vmulv tc sc a b = ∑ i, tc (a i) * sc (b i) := by
  rw [Vector.vmulv, vsum_eq_sum]
  rfl

/-- Modelled from the spec: the header under src/ offers no named
dot-product member on Vector — only the operator spelling operator*
exists — so the named operation described by the spec (section 4.1,
Dot product convenience) is defined here following the spec words:
the sum over index i of (element i of A times element i of B),
returning a single promoted scalar. -/
def Vector.dot {l : Nat} {T S R : Type} [AddCommMonoid R] [Mul R]
    (tc : T → R) (sc : S → R) (a : Vector l T) (b : Vector l S) : R :=
  ∑ i, tc (a i) * sc (b i)

/-- C9: the named dot-product operation returns exactly the same
result as the vector-by-vector multiply operator, for all same-length
vectors. -/
theorem dot_eq_vector_multiply {n : Nat} {T S R : Type}
    [AddCommMonoid R] [Mul R] (tc : T → R) (sc : S → R)
    (a : Vector (n + 1) T) (b : Vector (n + 1) S) :
    Vector.dot tc sc a b = Vector.vmulv tc sc a b := by
  rw [Vector.vmulv, vsum_eq_sum, Vector.dot]
  rfl

/-- C7: scalar multiplication distributes over vector addition
elementwise: (a + b) * k = a*k + b*k. The element types of a, b and
the scalar k may differ; their conversions into the promoted common
type R are the maps tc, sc and kc, and the identity conversion appears
where an operand already carries the promoted type. Exact element
arithmetic is modelled by R carrying ring-like distributivity. -/
theorem scalar_multiply_distributes_over_add {l : Nat} {T S K R : Type}
    [NonUnitalNonAssocSemiring R] (tc : T → R) (sc : S → R) (kc : K → R)
    (a : Vector l T) (b : Vector l S) (k : K) :
    Vector.vmuls id kc (Vector.vadd tc sc a b) k =
      Vector.vadd id id (Vector.vmuls tc kc a k) (Vector.vmuls sc kc b k) := by
  funext i
  exact add_mul (tc (a i)) (sc (b i)) (kc k)

/-- Embedding of Vector::norm (vector.h, lines 218-226): a double
accumulator starts at 0, the range loop adds i * i for every element
in storage order, and the square root of the accumulator is returned.
The double-precision value is modelled by a real number, with the
elements already embedded in the reals. -/
noncomputable def Vector.norm {l : Nat} (v : Vector l ℝ) : ℝ :=
  Real.sqrt ((List.ofFn v).foldl (fun acc i => acc + i * i) 0)

/-- A left fold accumulating squares equals the accumulator plus the
sum of squares. -/
theorem foldl_add_sq_eq (xs : List ℝ) (acc : ℝ) :
    xs.foldl (fun a x => a + x * x) acc = acc + (xs.map fun x => x * x).sum := by
  induction xs generalizing acc with
  | nil => simp
  | cons a as ih => simp [ih (acc + a * a), add_assoc]

/-- The embedded norm is the square root of the sum of the squared
entries. -/
theorem norm_eq_sqrt_sum_sq {l : Nat} (v : Vector l ℝ) :
    Vector.norm v = Real.sqrt (∑ i, v i ^ 2) := by
  rw [Vector.norm, foldl_add_sq_eq, zero_add, List.map_ofFn, List.sum_ofFn]
  congr 1
  exact Finset.sum_congr rfl fun i _ => (sq (v i)).symm

/-- C6: norm() returns the Euclidean norm, the square root of the sum
of the squares of the elements, as a double-precision value; a vector
whose only nonzero element equals one has norm 1, and the all-zero
vector has norm 0. -/
theorem norm_is_euclidean :
    (∀ (l : Nat) (v : Vector l ℝ),
      Vector.norm v = Real.sqrt (∑ i, v i ^ 2)) ∧
      (∀ (l : Nat) (v : Vector l ℝ) (j : Fin l), v j = 1 →
        (∀ i, i ≠ j → v i = 0) → Vector.norm v = 1) ∧
      ∀ l : Nat, Vector.norm (Vector.null l) = 0 := by
  refine ⟨fun l v => norm_eq_sqrt_sum_sq v, ?_, ?_⟩
  · intro l v j hj h0
    rw [norm_eq_sqrt_sum_sq]
    have hsum : ∑ i, v i ^ 2 = 1 := by
      rw [Finset.sum_eq_single j
        (fun i _ hne => by rw [h0 i hne]; ring)
        (fun h => absurd (Finset.mem_univ j) h)]
      rw [hj]; norm_num
    rw [hsum, Real.sqrt_one]
  · intro l
    rw [norm_eq_sqrt_sum_sq]
    simp [Vector.null]

/-- Witness for C6 at a concrete input: the vector with elements 1 and
0 has norm 1. -/
theorem norm_is_euclidean_witness :
    Vector.norm (![1, 0] : Vector 2 ℝ) = 1 :=
  norm_is_euclidean.2.1 2 ![1, 0] 0 rfl
    (fun i hi => by fin_cases i <;> simp_all)

/-- Embedding of the stream output operator for Vector (vector.h,
lines 231-251), with the element rendering os << e modelled by
toString. For l > 1 it writes an opening brace and space, the first
element, then a comma, space and element for every later element in
storage order, then a space and closing brace. For l = 1 it writes the
opening brace and space, the element, and a single trailing space with
no closing brace. A vector of length 0 cannot be constructed, so the
embedding takes length n + 1. -/
def Vector.render {n : Nat} {T : Type} [ToString T]
    (v : Vector (n + 1) T) : String :=
  if 0 < n then
    "\x7b " ++ toString (v 0) ++
      String.join ((List.ofFn fun i : Fin n => v i.succ).map
        fun y => ", " ++ toString y) ++ " \x7d"
  else
    "\x7b " ++ toString (v 0) ++ " "

/-- A left fold of string append starting at x appends the join of the
list to x. -/
theorem foldl_append_eq_append_join (ys : List String) (x : String) :
    ys.foldl (fun a b => a ++ b) x = x ++ String.join ys := by
  induction ys generalizing x with
  | nil => exact (String.append_empty x).symm
  | cons y ys ih =>
    show ys.foldl (fun a b => a ++ b) (x ++ y) = _
    rw [ih (x ++ y), String.append_assoc]
    congr 1
    rw [show String.join (y :: ys) = ys.foldl (fun a b => a ++ b) ("" ++ y)
      from rfl]
    rw [ih ("" ++ y), String.empty_append]

/-- String join splits off the head element. -/
theorem string_join_cons (y : String) (ys : List String) :
    String.join (y :: ys) = y ++ String.join ys := by
  rw [show String.join (y :: ys) = ys.foldl (fun a b => a ++ b) ("" ++ y)
    from rfl]
  rw [foldl_append_eq_append_join, String.empty_append]

/-- The helper loop of String.intercalate appends separator-prefixed
copies of the remaining pieces to the accumulator. -/
theorem intercalate_go_spec (s : String) (xs : List String) (acc : String) :
    String.intercalate.go acc s xs =
      acc ++ String.join (xs.map fun y => s ++ y) := by
  induction xs generalizing acc with
  | nil => exact (String.append_empty acc).symm
  | cons a as ih =>
    show String.intercalate.go (acc ++ s ++ a) s as = _
    rw [ih (acc ++ s ++ a), List.map_cons, string_join_cons]
    simp [String.append_assoc]

/-- Rendering a head element followed by comma-prefixed copies of the
rest is exactly the comma-separated intercalation. -/
theorem head_join_eq_intercalate (x : String) (xs : List String) :
    x ++ String.join (xs.map fun y => ", " ++ y) =
      String.intercalate ", " (x :: xs) := by
  rw [show String.intercalate ", " (x :: xs) =
    String.intercalate.go x ", " xs from rfl]
  rw [intercalate_go_spec]

/-- C8: streaming a vector of length at least 2 renders it exactly as
an opening brace and space, the comma-and-space separated elements in
order, then a space and closing brace — for example the 3-element
integer vector with elements 1, 2, 3 renders as the seven-token string
shown in the third conjunct — while a single-element vector renders as
the opening brace and space, the element, and a trailing space with no
closing brace. -/
theorem vector_rendering :
    (∀ (n : Nat) (T : Type) [ToString T] (v : Vector (n + 2) T),
      Vector.render v =
        "\x7b " ++ String.intercalate ", " ((List.ofFn v).map toString) ++
          " \x7d") ∧
      (∀ (T : Type) [ToString T] (e : T),
        Vector.render (![e] : Vector 1 T) = "\x7b " ++ toString e ++ " ") ∧
      Vector.render (![1, 2, 3] : Vector 3 Int) = "\x7b 1, 2, 3 \x7d" := by
  refine ⟨?_, ?_, ?_⟩
  · intro n T _ v
    rw [Vector.render, if_pos (Nat.succ_pos n)]
    have key : toString (v 0) ++
        String.join ((List.ofFn fun i : Fin (n + 1) => v i.succ).map
          fun y => ", " ++ toString y) =
        String.intercalate ", " ((List.ofFn v).map toString) := by
      rw [List.ofFn_succ (f := v), List.map_cons, ← head_join_eq_intercalate,
        List.map_map]
      rfl
    rw [String.append_assoc "\x7b " (toString (v 0)), key]
  · intro T _ e
    rfl
  · rfl

/-- Shallow embedding of colibra::Matrix<rows, columns, T> (the matrix
header): a fixed rows-by-columns grid of elements of type T, here a
function from a row index and a column index to the element. -/
abbrev Matrix (rows columns : Nat) (T : Type) : Type :=
  Fin rows → Fin columns → T

/-- Embedding of the Matrix constructor (matrix header, lines 17-30):
the member array of arrays is value-initialized, the first row literal
is copied into row 0, and assign_recursive copies each further row
literal into rows 1, 2, and so on. Every row literal shares the same
length N = columns, enforced by the single pack extent N, and N = 0 is
rejected by static_assert; supplying more row literals than the row
count writes past the array bound in a constant-evaluated context and
does not compile, both modelled as none. The row literals are passed
here as a list. -/
def Matrix.mk? {T : Type} [Zero T] (R : Nat) {C : Nat}
    (rows : List (Fin C → T)) : Option (Matrix R C T) :=
  if rows.length ≤ R ∧ 0 < C then
    some (fun i j => rows.getD i.val (fun _ => 0) j)
  else none

/-- Embedding of Matrix::width (matrix header, lines 32-35): the
column count template parameter. -/
def Matrix.width {R C : Nat} {T : Type} (_m : Matrix R C T) : Nat := C

/-- Embedding of Matrix::height (matrix header, lines 36-39): the row
count template parameter. -/
def Matrix.height {R C : Nat} {T : Type} (_m : Matrix R C T) : Nat := R

/-- Embedding of Matrix::operator[] (matrix header, lines 41-49):
returns a copy of the row stored at index p. -/
def Matrix.row {R C : Nat} {T : Type} (m : Matrix R C T) (p : Fin R) :
    Fin C → T :=
  m p

/-- Reading a matrix row-major: rows 0..R-1 in order through
Matrix::operator[], each row left to right, concatenated into one
list. -/
def Matrix.readRowMajor {R C : Nat} {T : Type} (m : Matrix R C T) : List T :=
  (List.ofFn fun i : Fin R => List.ofFn (Matrix.row m i)).flatten

/-- C5: constructing a matrix from R row literals of C values each
yields height R, width C, and the elements laid out in row-major
order — reading rows 0..R-1 in order, each row left to right, visits
the supplied values in supply order. -/
theorem matrix_row_major_layout {T : Type} [Zero T] {R C : Nat}
    (rows : List (Fin C → T)) (hlen : rows.length = R) (hC : 0 < C) :
    ((Matrix.mk? R rows).map Matrix.height) = some R ∧
      ((Matrix.mk? R rows).map Matrix.width) = some C ∧
      ((Matrix.mk? R rows).map Matrix.readRowMajor) =
        some ((rows.map List.ofFn).flatten) := by
  have hcond : rows.length ≤ R ∧ 0 < C := ⟨hlen.le, hC⟩
  refine ⟨?_, ?_, ?_⟩
  · rw [Matrix.mk?, if_pos hcond]; rfl
  · rw [Matrix.mk?, if_pos hcond]; rfl
  · rw [Matrix.mk?, if_pos hcond, Option.map_some']
    congr 1
    subst hlen
    rw [Matrix.readRowMajor]
    congr 1
    refine List.ext_getElem (by simp) fun i hi₁ hi₂ => ?_
    rw [List.getElem_ofFn, List.getElem_map]
    have hi : i < rows.length := by simpa using hi₂
    show List.ofFn (rows.getD i fun _ => (0 : T)) = List.ofFn rows[i]
    rw [List.getD_eq_getElem rows _ hi]

/-- Witness for C5 at the concrete input from the repository test:
rows of values 0 1 2, 3 4 5, 6 7 8, 9 10 11 give height 4, width 3 and
row-major reading order 0 through 11. -/
theorem matrix_row_major_layout_witness :
    ((Matrix.mk? 4 ([![0, 1, 2], ![3, 4, 5], ![6, 7, 8], ![9, 10, 11]] :
        List (Fin 3 → Int))).map Matrix.height) = some 4 ∧
      ((Matrix.mk? 4 ([![0, 1, 2], ![3, 4, 5], ![6, 7, 8], ![9, 10, 11]] :
        List (Fin 3 → Int))).map Matrix.width) = some 3 ∧
      ((Matrix.mk? 4 ([![0, 1, 2], ![3, 4, 5], ![6, 7, 8], ![9, 10, 11]] :
        List (Fin 3 → Int))).map Matrix.readRowMajor) =
        some [0, 1, 2, 3, 4, 5, 6, 7, 8, 9, 10, 11] := by
  have h := matrix_row_major_layout (R := 4)
    ([![0, 1, 2], ![3, 4, 5], ![6, 7, 8], ![9, 10, 11]] : List (Fin 3 → Int))
    (by decide) (by decide)
  exact ⟨h.1, h.2.1, h.2.2.trans (by decide)⟩

end colibra
